import Mathlib

set_option autoImplicit false

/-! Shallow embedding of the aggregation core of cargo-crev
(src/cargo-crev/src/deps.rs, plus the exit-code mapping of src/cargo-crev/src/main.rs).

Rust `HashMap<PackageId, HashSet<String>>` is modelled as an association list
`List (PackageId × Finset String)`; the HashMap invariant (each key occurs at
most once) appears as `(keysOf l).Nodup` hypotheses where a result depends on it.
Rust `Result<T>` is modelled as `Except String T`, `Option<T>` as `Option T`,
machine integers (`u64`, `usize`) as `Nat` (no claim depends on overflow). -/

/-- Stand-in for cargo's `PackageId`, an opaque identifier (name + version + source);
only its decidable equality is used by deps.rs. -/
abbrev PackageId := Nat

/-- Stand-in for `crev_data::PubId`, a reviewer identity; only its decidable
equality is used by deps.rs. -/
abbrev PubId := String

/-- Stand-in for a crate digest; deps.rs never inspects it. -/
abbrev Digest := Nat

/-- Stand-in for a semver `Version`; deps.rs only compares trusted versions for
printing, which no claim touches. -/
abbrev Version := Nat

/-- Modelled from the spec: `crev_lib::VerificationStatus` is defined outside this
repository's sources; the spec describes a trust level as "an ordered rating
(e.g., None/Low/Medium/High)". deps.rs only uses its total order via `Ord::min`. -/
inductive VerificationStatus where
  | statusNone
  | low
  | medium
  | high
deriving DecidableEq

/-- Rank of a trust level in the derived total order. -/
def VerificationStatus.toNat : VerificationStatus → Nat
  | .statusNone => 0
  | .low => 1
  | .medium => 2
  | .high => 3

/-- Rust `Ord::min` on the derived order of `VerificationStatus`: the smaller
of the two values, the second one on a tie. -/
def VerificationStatus.min (a b : VerificationStatus) : VerificationStatus :=
  if a.toNat < b.toNat then a else b

/-- `CountWithTotal<T>` from deps.rs: a count of something plus the "total"
number of that thing. -/
structure CountWithTotal (T : Type) where
  count : T
  total : T
deriving DecidableEq

/-- `impl Add for CountWithTotal`: component-wise addition. -/
instance {T : Type} [Add T] : Add (CountWithTotal T) :=
  ⟨fun a b => ⟨a.count + b.count, a.total + b.total⟩⟩

/-- Keys of an association list (the key set of the Rust `HashMap`). -/
def keysOf (l : List (PackageId × Finset String)) : List PackageId :=
  l.map Prod.fst

/-- Rust `HashMap::insert`: replace the value if the key is present, otherwise
add the entry. -/
def insertKV (l : List (PackageId × Finset String)) (k : PackageId) (v : Finset String) :
    List (PackageId × Finset String) :=
  if k ∈ keysOf l then l.map (fun p => if p.1 = k then (k, v) else p) else l ++ [(k, v)]

/-- Rust `HashMap` lookup on the association-list model. -/
def lookupKV : List (PackageId × Finset String) → PackageId → Option (Finset String)
  | [], _ => none
  | p :: rest, k => if p.1 = k then some p.2 else lookupKV rest k

/-- The body of `impl Add for OwnerSetSet`: clone the left map, then insert
every entry of the right map into it. -/
def addKV (a b : List (PackageId × Finset String)) : List (PackageId × Finset String) :=
  b.foldl (fun acc p => insertKV acc p.1 p.2) a

/-- `OwnerSetSet` from deps.rs: a set of sets of owners, keyed by originating
package. -/
structure OwnerSetSet where
  groups : List (PackageId × Finset String)

/-- `OwnerSetSet::new`: singleton construction. -/
def OwnerSetSet.new (pkg_id : PackageId) (set : Finset String) : OwnerSetSet :=
  ⟨[(pkg_id, set)]⟩

/-- `OwnerSetSet::to_total_owners`: the size of the union of all owner sets. -/
def OwnerSetSet.to_total_owners (s : OwnerSetSet) : Nat :=
  (s.groups.foldr (fun (p : PackageId × Finset String) acc => p.2 ∪ acc) (∅ : Finset String)).card

/-- `OwnerSetSet::to_total_distinct_groups`: count the groups for which no
other position in the iteration holds a superset of the group's members. -/
def OwnerSetSet.to_total_distinct_groups (s : OwnerSetSet) : Nat :=
  s.groups.enum.countP fun gi =>
    !(s.groups.enum.any fun gj => decide (gj.1 ≠ gi.1) && decide (gi.2.2 ⊆ gj.2.2))

/-- `impl Add for OwnerSetSet`: key-wise union, right operand wins on collision. -/
instance : Add OwnerSetSet :=
  ⟨fun a b => ⟨addKV a.groups b.groups⟩⟩

/-- The set a package maps to, if the package is listed. -/
def OwnerSetSet.lookup (s : OwnerSetSet) (k : PackageId) : Option (Finset String) :=
  lookupKV s.groups k

/-- The package is listed in the map. -/
def OwnerSetSet.hasKey (s : OwnerSetSet) (k : PackageId) : Prop :=
  k ∈ keysOf s.groups

instance (s : OwnerSetSet) (k : PackageId) : Decidable (s.hasKey k) :=
  inferInstanceAs (Decidable (k ∈ keysOf s.groups))

/-- Extensional equality of the underlying maps (Rust `HashMap`s are equal as
maps when they agree on every key). -/
def OwnerSetSet.equiv (a b : OwnerSetSet) : Prop :=
  ∀ k, a.lookup k = b.lookup k

/-- `sum_options` from deps.rs: the sum when both are known, unknown otherwise. -/
def sum_options {T : Type} [Add T] : Option T → Option T → Option T
  | some a, some b => some (a + b)
  | _, _ => none

/-- `AccumulativeCrateDetails` from deps.rs: crate statistics that can be
accumulated by recursively including dependencies. -/
structure AccumulativeCrateDetails where
  trust : VerificationStatus
  trusted_issues : CountWithTotal Nat
  verified : Bool
  loc : Option Nat
  geiger_count : Option Nat
  has_custom_build : Bool
  owner_set : OwnerSetSet

/-- `impl Add for AccumulativeCrateDetails`: the per-field combination rule. -/
instance : Add AccumulativeCrateDetails :=
  ⟨fun a b =>
    ⟨a.trust.min b.trust,
     a.trusted_issues + b.trusted_issues,
     a.verified && b.verified,
     sum_options a.loc b.loc,
     sum_options a.geiger_count b.geiger_count,
     a.has_custom_build || b.has_custom_build,
     a.owner_set + b.owner_set⟩⟩

/-- Field-wise equality of two rollups, with the owner sets compared as maps. -/
def AccumulativeCrateDetails.equiv (a b : AccumulativeCrateDetails) : Prop :=
  a.trust = b.trust ∧ a.trusted_issues = b.trusted_issues ∧ a.verified = b.verified ∧
    a.loc = b.loc ∧ a.geiger_count = b.geiger_count ∧
    a.has_custom_build = b.has_custom_build ∧ a.owner_set.equiv b.owner_set

/-- `CrateDetails` from deps.rs: one package's presentable facts. -/
structure CrateDetails where
  digest : Digest
  latest_trusted_version : Option Version
  trusted_reviewers : Finset PubId
  version_reviews : CountWithTotal Nat
  version_downloads : Option (CountWithTotal Nat)
  known_owners : Option (CountWithTotal Nat)
  unclean_digest : Bool
  accumulative_own : AccumulativeCrateDetails
  accumulative : AccumulativeCrateDetails

/-- `CrateInfo` from deps.rs: basic info of a crate being scanned. -/
structure CrateInfo where
  id : PackageId
  root : String
  has_custom_build : Bool

/-- `CrateStats` from deps.rs: a visited dependency; `details` is `Err` when
fact-gathering failed and `Ok(None)` when facts are intentionally unavailable. -/
structure CrateStats where
  info : CrateInfo
  details : Except String (Option CrateDetails)

/-- The `CrateStats::details()` accessor: `Some` exactly on `Ok(Some(_))`. -/
def CrateStats.details' (s : CrateStats) : Option CrateDetails :=
  match s.details with
  | .ok (some d) => some d
  | _ => none

/-- `CrateStats::is_digest_unclean`: `details().map_or(false, |d| d.unclean_digest)`. -/
def CrateStats.is_digest_unclean (s : CrateStats) : Bool :=
  s.details'.elim false fun d => d.unclean_digest

/-- `CrateStats::has_details`: `details().is_some()`. -/
def CrateStats.has_details (s : CrateStats) : Bool :=
  s.details'.isSome

/-- `CrateStats::has_custom_build`: the accumulated subtree's flag, when details
were obtained. -/
def CrateStats.has_custom_build (s : CrateStats) : Option Bool :=
  (s.details.toOption.bind fun d => d).map fun d => d.accumulative.has_custom_build

/-- `CommandExitStatus` as used by verify_deps and main. -/
inductive CommandExitStatus where
  | Success
  | VerificationFailed
deriving DecidableEq

/-- One iteration of the counting loop of `verify_deps`. Rust first tests
`dep.is_digest_unclean()` and only then calls `dep.details().unwrap()`; the
`none` fallthrough is unreachable because `is_digest_unclean` implies the
details are present (the Rust `unwrap` cannot panic there). -/
def verify_step (acc : Nat × Nat) (dep : CrateStats) : Nat × Nat :=
  if dep.is_digest_unclean then
    match dep.details' with
    | some details =>
        ((if details.unclean_digest then acc.1 + 1 else acc.1),
         (if !details.accumulative.verified then acc.2 + 1 else acc.2))
    | none => acc
  else acc

/-- The pair `(nb_unclean_digests, nb_unverified)` computed by `verify_deps`. -/
def verify_counts (deps : List CrateStats) : Nat × Nat :=
  deps.foldl verify_step (0, 0)

/-- The exit status returned by `verify_deps` (printing, which is pure I/O, is
not modelled; no claim depends on it). -/
def verify_deps (deps : List CrateStats) : CommandExitStatus :=
  if (verify_counts deps).2 = 0 then .Success else .VerificationFailed

/-- The process exit code chosen by `main` in main.rs from the outcome of
`run_command`. -/
def mainExitCode : Except String CommandExitStatus → Int
  | .ok .Success => 0
  | .ok .VerificationFailed => -1
  | .error _ => -2

/-- Outcome of running a command body: a value, a propagated `Err`, or a panic. -/
inductive RunResult (α : Type) where
  | ok (value : α)
  | err (msg : String)
  | panicked (msg : String)

/-- The outcome is a propagated `Err`. -/
def RunResult.isErr {α : Type} : RunResult α → Bool
  | .err _ => true
  | _ => false

/-- The outcome is a normal return. -/
def RunResult.isOk {α : Type} : RunResult α → Bool
  | .ok _ => true
  | _ => false

/-- The accumulation loop of `crate_mvps`: per entry, `stats.details?` propagates
an `Err`, `.expect("some")` panics on `Ok(None)`, and otherwise every trusted
reviewer's tally is incremented. -/
def crate_mvps_go (acc : PubId → Nat) : List CrateStats → RunResult (PubId → Nat)
  | [] => .ok acc
  | s :: rest =>
    match s.details with
    | .error e => .err e
    | .ok none => .panicked "some"
    | .ok (some d) =>
        crate_mvps_go (fun i => if i ∈ d.trusted_reviewers then acc i + 1 else acc i) rest

/-- `crate_mvps` from deps.rs, modelled up to its observable aggregation: the
final per-reviewer tallies (the subsequent sort and printing consume them). -/
def crate_mvps (deps : List CrateStats) : RunResult (PubId → Nat) :=
  crate_mvps_go (fun _ => 0) deps

/-- Written from the spec sentence for C6: a group is excluded iff a group of a
different package contains all of its members ("there exists a *different*
group in the collection such that the first group's members are a subset of
the second's"). -/
def spec_distinct_groups (s : OwnerSetSet) : Nat :=
  s.groups.countP fun g =>
    !(s.groups.any fun g2 => decide (g2.1 ≠ g.1) && decide (g.2 ⊆ g2.2))

/-- Written from the spec sentence for C5: an entry whose details are present
and whose `unclean_digest` is true. -/
def spec_unclean (d : CrateStats) : Bool :=
  d.has_details && d.is_digest_unclean

/-- Written from the spec sentence for C5: an entry counted unclean whose
accumulated-tree `verified` flag is false. -/
def spec_unclean_unverified (d : CrateStats) : Bool :=
  d.has_details && d.is_digest_unclean &&
    !(d.details'.elim true fun x => x.accumulative.verified)

/-- Two packages with equal owner sets (the spec's `{P1:{x,y}, P2:{y,x}}`). -/
def ossEqualPair : OwnerSetSet := ⟨[(1, {"x", "y"}), (2, {"y", "x"})]⟩

/-- Two packages, the second owner set a subset of the first (`{P1:{x,y}, P2:{x}}`). -/
def ossSubsetPair : OwnerSetSet := ⟨[(1, {"x", "y"}), (2, {"x"})]⟩

/-- Two packages with disjoint owner sets (`{P1:{x}, P2:{y}}`). -/
def ossDisjointPair : OwnerSetSet := ⟨[(1, {"x"}), (2, {"y"})]⟩

/-- Owner sets for packages 1 and 2. -/
def ossL : OwnerSetSet := ⟨[(1, {"x"}), (2, {"z"})]⟩

/-- An owner set for package 1 that collides with the one in `ossL`. -/
def ossR : OwnerSetSet := ⟨[(1, {"y"})]⟩

/-- A concrete rollup whose owner set is `ossL`. -/
def accL : AccumulativeCrateDetails := ⟨.high, ⟨1, 2⟩, true, some 10, some 0, false, ossL⟩

/-- A concrete rollup whose owner set is `ossR`, colliding with `accL` on package 1. -/
def accR : AccumulativeCrateDetails := ⟨.medium, ⟨0, 1⟩, true, some 5, some 3, true, ossR⟩

/-- A concrete rollup with unknown lines of code. -/
def accT : AccumulativeCrateDetails := ⟨.low, ⟨2, 2⟩, false, none, some 1, false, ossDisjointPair⟩

/-- A verified single-package rollup. -/
def accG : AccumulativeCrateDetails :=
  ⟨.high, ⟨0, 0⟩, true, some 0, some 0, false, OwnerSetSet.new 3 {"o"}⟩

/-- Details of a successfully scanned package. -/
def detGood : CrateDetails := ⟨7, none, {"alice"}, ⟨1, 1⟩, none, none, false, accG, accG⟩

/-- A dependency whose facts were obtained. -/
def statsGood : CrateStats := ⟨⟨3, "g", false⟩, .ok (some detGood)⟩

/-- A dependency whose facts are intentionally unavailable (`Ok(None)`). -/
def statsNone : CrateStats := ⟨⟨4, "n", false⟩, .ok none⟩

/-- A dependency whose fact-gathering failed (`Err`). -/
def statsErr : CrateStats := ⟨⟨5, "e", false⟩, .error "io"⟩

/-- A rollup without build-script risk anywhere in the subtree. -/
def accB : AccumulativeCrateDetails :=
  ⟨.low, ⟨0, 0⟩, true, some 1, some 0, false, OwnerSetSet.new 6 {"p"}⟩

/-- Details whose accumulated subtree has `has_custom_build = false`. -/
def detBuild : CrateDetails := ⟨9, none, ∅, ⟨0, 1⟩, none, none, false, accB, accB⟩

/-- A dependency whose own `CrateInfo.has_custom_build` flag is true while the
accumulated subtree's flag is false. -/
def statsBuild : CrateStats := ⟨⟨6, "b", true⟩, .ok (some detBuild)⟩

theorem keysOf_nil : keysOf [] = [] := rfl

theorem keysOf_cons (p : PackageId × Finset String) (l : List (PackageId × Finset String)) :
    keysOf (p :: l) = p.1 :: keysOf l := rfl

theorem keysOf_append (l₁ l₂ : List (PackageId × Finset String)) :
    keysOf (l₁ ++ l₂) = keysOf l₁ ++ keysOf l₂ :=
  List.map_append _ _ _

theorem keysOf_insertKV (l : List (PackageId × Finset String)) (k : PackageId)
    (v : Finset String) :
    keysOf (insertKV l k v) = if k ∈ keysOf l then keysOf l else keysOf l ++ [k] := by
  by_cases hk : k ∈ keysOf l
  · rw [if_pos hk, insertKV, if_pos hk]
    have hf : (Prod.fst ∘ fun p : PackageId × Finset String =>
        if p.1 = k then (k, v) else p) = Prod.fst := by
      funext p
      by_cases h : p.1 = k
      · simp [h]
      · simp [h]
    simp only [keysOf, List.map_map, hf]
  · rw [if_neg hk, insertKV, if_neg hk, keysOf_append]
    rfl

theorem mem_keysOf_insertKV (l : List (PackageId × Finset String)) (k m : PackageId)
    (v : Finset String) :
    m ∈ keysOf (insertKV l k v) ↔ m ∈ keysOf l ∨ m = k := by
  rw [keysOf_insertKV]
  by_cases hk : k ∈ keysOf l
  · rw [if_pos hk]
    constructor
    · exact Or.inl
    · rintro (hm | rfl)
      · exact hm
      · exact hk
  · rw [if_neg hk]
    simp [List.mem_append]

theorem nodup_keysOf_insertKV {l : List (PackageId × Finset String)} (k : PackageId)
    (v : Finset String) (h : (keysOf l).Nodup) : (keysOf (insertKV l k v)).Nodup := by
  rw [keysOf_insertKV]
  by_cases hk : k ∈ keysOf l
  · rwa [if_pos hk]
  · rw [if_neg hk, List.nodup_append]
    refine ⟨h, List.nodup_singleton k, ?_⟩
    intro a ha hb
    rw [List.mem_singleton] at hb
    exact hk (hb ▸ ha)

theorem lookupKV_map_replace {l : List (PackageId × Finset String)} {k : PackageId}
    (v : Finset String) (hk : k ∈ keysOf l) :
    lookupKV (l.map fun p => if p.1 = k then (k, v) else p) k = some v := by
  induction l with
  | nil => simp [keysOf] at hk
  | cons p rest ih =>
    by_cases h : p.1 = k
    · simp [lookupKV, h]
    · rw [keysOf_cons, List.mem_cons] at hk
      have hr : k ∈ keysOf rest := hk.resolve_left fun e => h e.symm
      simp [lookupKV, h, ih hr]

theorem lookupKV_map_replace_ne {l : List (PackageId × Finset String)} {k m : PackageId}
    (v : Finset String) (h : m ≠ k) :
    lookupKV (l.map fun p => if p.1 = k then (k, v) else p) m = lookupKV l m := by
  induction l with
  | nil => rfl
  | cons p rest ih =>
    by_cases hp : p.1 = k
    · simp [lookupKV, hp, Ne.symm h, ih]
    · by_cases hm : p.1 = m
      · simp [lookupKV, hm, h]
      · simp [lookupKV, hp, hm, ih]

theorem lookupKV_append_not_mem {l₁ : List (PackageId × Finset String)} {k : PackageId}
    (l₂ : List (PackageId × Finset String)) (hk : k ∉ keysOf l₁) :
    lookupKV (l₁ ++ l₂) k = lookupKV l₂ k := by
  induction l₁ with
  | nil => rfl
  | cons p rest ih =>
    rw [keysOf_cons, List.mem_cons] at hk
    push_neg at hk
    simp [lookupKV, Ne.symm hk.1, ih hk.2]

theorem lookupKV_append_single_ne (l : List (PackageId × Finset String)) {k m : PackageId}
    (v : Finset String) (h : m ≠ k) :
    lookupKV (l ++ [(k, v)]) m = lookupKV l m := by
  induction l with
  | nil => simp [lookupKV, Ne.symm h]
  | cons p rest ih =>
    by_cases hm : p.1 = m
    · simp [lookupKV, hm]
    · simp [lookupKV, hm, ih]

theorem lookupKV_insertKV_self (l : List (PackageId × Finset String)) (k : PackageId)
    (v : Finset String) : lookupKV (insertKV l k v) k = some v := by
  by_cases hk : k ∈ keysOf l
  · rw [insertKV, if_pos hk]
    exact lookupKV_map_replace v hk
  · rw [insertKV, if_neg hk, lookupKV_append_not_mem _ hk]
    simp [lookupKV]

theorem lookupKV_insertKV_ne (l : List (PackageId × Finset String)) {k m : PackageId}
    (v : Finset String) (h : m ≠ k) : lookupKV (insertKV l k v) m = lookupKV l m := by
  by_cases hk : k ∈ keysOf l
  · rw [insertKV, if_pos hk]
    exact lookupKV_map_replace_ne v h
  · rw [insertKV, if_neg hk]
    exact lookupKV_append_single_ne l v h

theorem addKV_nil (a : List (PackageId × Finset String)) : addKV a [] = a := rfl

theorem addKV_cons (a : List (PackageId × Finset String)) (p : PackageId × Finset String)
    (b : List (PackageId × Finset String)) :
    addKV a (p :: b) = addKV (insertKV a p.1 p.2) b := rfl

theorem mem_keysOf_addKV (a b : List (PackageId × Finset String)) (m : PackageId) :
    m ∈ keysOf (addKV a b) ↔ m ∈ keysOf a ∨ m ∈ keysOf b := by
  induction b generalizing a with
  | nil => simp [addKV_nil, keysOf]
  | cons p rest ih =>
    rw [addKV_cons, ih, mem_keysOf_insertKV, keysOf_cons, List.mem_cons]
    tauto

theorem nodup_keysOf_addKV {a : List (PackageId × Finset String)}
    (b : List (PackageId × Finset String)) (h : (keysOf a).Nodup) :
    (keysOf (addKV a b)).Nodup := by
  induction b generalizing a with
  | nil => exact h
  | cons p rest ih => exact ih (nodup_keysOf_insertKV p.1 p.2 h)

theorem lookupKV_addKV (a : List (PackageId × Finset String))
    {b : List (PackageId × Finset String)} (m : PackageId) (hb : (keysOf b).Nodup) :
    lookupKV (addKV a b) m = if m ∈ keysOf b then lookupKV b m else lookupKV a m := by
  induction b generalizing a with
  | nil => simp [addKV_nil, keysOf, lookupKV]
  | cons p rest ih =>
    rw [keysOf_cons, List.nodup_cons] at hb
    rw [addKV_cons, ih _ hb.2]
    by_cases hm : m ∈ keysOf rest
    · have hpm : p.1 ≠ m := fun e => hb.1 (e ▸ hm)
      rw [if_pos hm, keysOf_cons, if_pos (List.mem_cons_of_mem _ hm)]
      simp [lookupKV, hpm]
    · by_cases hpm : p.1 = m
      · subst hpm
        rw [if_neg hm, keysOf_cons, if_pos (List.mem_cons_self _ _)]
        simp [lookupKV, lookupKV_insertKV_self]
      · have hnm : m ∉ p.1 :: keysOf rest := by
          rw [List.mem_cons]
          rintro (e | e)
          · exact hpm e.symm
          · exact hm e
        rw [if_neg hm, keysOf_cons, if_neg hnm,
          lookupKV_insertKV_ne a p.2 fun e => hpm e.symm]

theorem OwnerSetSet.hasKey_add (a b : OwnerSetSet) (m : PackageId) :
    (a + b).hasKey m ↔ a.hasKey m ∨ b.hasKey m :=
  mem_keysOf_addKV a.groups b.groups m

theorem OwnerSetSet.lookup_add (a b : OwnerSetSet) (m : PackageId)
    (hb : (keysOf b.groups).Nodup) :
    (a + b).lookup m = if b.hasKey m then b.lookup m else a.lookup m :=
  lookupKV_addKV a.groups m hb

theorem OwnerSetSet.add_assoc_equiv (a b c : OwnerSetSet)
    (hb : (keysOf b.groups).Nodup) (hc : (keysOf c.groups).Nodup) :
    ((a + b) + c).equiv (a + (b + c)) := by
  intro k
  have hbc : (keysOf (b + c).groups).Nodup := nodup_keysOf_addKV c.groups hb
  rw [OwnerSetSet.lookup_add (a + b) c k hc, OwnerSetSet.lookup_add a b k hb,
    OwnerSetSet.lookup_add a (b + c) k hbc, OwnerSetSet.lookup_add b c k hc]
  by_cases hck : c.hasKey k <;> by_cases hbk : b.hasKey k <;>
    simp [hck, hbk, OwnerSetSet.hasKey_add]

theorem VerificationStatus.min_assoc (a b c : VerificationStatus) :
    (a.min b).min c = a.min (b.min c) := by
  cases a <;> cases b <;> cases c <;> decide

theorem VerificationStatus.min_comm (a b : VerificationStatus) :
    a.min b = b.min a := by
  cases a <;> cases b <;> decide

theorem CountWithTotal.add_def {T : Type} [Add T] (a b : CountWithTotal T) :
    a + b = ⟨a.count + b.count, a.total + b.total⟩ := rfl

theorem CountWithTotal.nat_add_assoc (a b c : CountWithTotal Nat) :
    a + b + c = a + (b + c) := by
  simp only [CountWithTotal.add_def, Nat.add_assoc]

theorem CountWithTotal.nat_add_comm (a b : CountWithTotal Nat) :
    a + b = b + a := by
  simp only [CountWithTotal.add_def]
  rw [Nat.add_comm a.count b.count, Nat.add_comm a.total b.total]

theorem sum_options_none_left {T : Type} [Add T] (b : Option T) :
    sum_options none b = none := by cases b <;> rfl

theorem sum_options_none_right {T : Type} [Add T] (a : Option T) :
    sum_options a none = none := by cases a <;> rfl

theorem sum_options_some {T : Type} [Add T] (x y : T) :
    sum_options (some x) (some y) = some (x + y) := rfl

theorem sum_options_nat_assoc (a b c : Option Nat) :
    sum_options (sum_options a b) c = sum_options a (sum_options b c) := by
  rcases a with _ | x <;> rcases b with _ | y <;> rcases c with _ | z <;>
    simp [sum_options, Nat.add_assoc]

theorem sum_options_nat_comm (a b : Option Nat) :
    sum_options a b = sum_options b a := by
  rcases a with _ | x <;> rcases b with _ | y <;> simp [sum_options, Nat.add_comm]

theorem has_details_iff (s : CrateStats) :
    s.has_details = true ↔ ∃ d, s.details = Except.ok (some d) := by
  rcases hd : s.details with e | od
  · simp [CrateStats.has_details, CrateStats.details', hd]
  · rcases od with _ | d
    · simp [CrateStats.has_details, CrateStats.details', hd]
    · simp [CrateStats.has_details, CrateStats.details', hd]

theorem crate_mvps_go_append (pre rest : List CrateStats) (acc : PubId → Nat)
    (hpre : ∀ x ∈ pre, x.has_details = true) :
    ∃ acc2, crate_mvps_go acc (pre ++ rest) = crate_mvps_go acc2 rest := by
  induction pre generalizing acc with
  | nil => exact ⟨acc, rfl⟩
  | cons x pre ih =>
    obtain ⟨d, hd⟩ := (has_details_iff x).mp (hpre x (List.mem_cons_self x pre))
    have hstep : crate_mvps_go acc (x :: (pre ++ rest)) =
        crate_mvps_go (fun i => if i ∈ d.trusted_reviewers then acc i + 1 else acc i)
          (pre ++ rest) := by
      simp [crate_mvps_go, hd]
    rw [List.cons_append, hstep]
    exact ih _ fun y hy => hpre y (List.mem_cons_of_mem x hy)

theorem verify_foldl (deps : List CrateStats) : ∀ acc : Nat × Nat,
    deps.foldl verify_step acc =
      (acc.1 + deps.countP spec_unclean, acc.2 + deps.countP spec_unclean_unverified) := by
  induction deps with
  | nil => intro acc; simp
  | cons d rest ih =>
    intro acc
    rw [List.foldl_cons, ih]
    rcases hd : d.details' with _ | det
    · have h1 : spec_unclean d = false := by
        simp [spec_unclean, CrateStats.has_details, hd]
      have h3 : verify_step acc d = acc := by
        simp [verify_step, CrateStats.is_digest_unclean, hd]
      have h2 : spec_unclean_unverified d = false := by
        simp [spec_unclean_unverified, CrateStats.has_details, hd]
      rw [h3, List.countP_cons, List.countP_cons, h1, h2]
      simp
    · have hhd : d.has_details = true := by
        simp [CrateStats.has_details, hd]
      by_cases hu : det.unclean_digest
      · have hdu : d.is_digest_unclean = true := by
          simp [CrateStats.is_digest_unclean, hd, hu]
        have h1 : spec_unclean d = true := by
          simp [spec_unclean, hhd, hdu]
        by_cases hv : det.accumulative.verified
        · have h2 : spec_unclean_unverified d = false := by
            simp [spec_unclean_unverified, hd, hv]
          have h3 : verify_step acc d = (acc.1 + 1, acc.2) := by
            simp [verify_step, hdu, hd, hu, hv]
          rw [h3, List.countP_cons, List.countP_cons, h1, h2]
          rw [Prod.ext_iff]
          constructor <;> (simp; try omega)
        · have h2 : spec_unclean_unverified d = true := by
            simp [spec_unclean_unverified, hhd, hdu, hd, hv]
          have h3 : verify_step acc d = (acc.1 + 1, acc.2 + 1) := by
            simp [verify_step, hdu, hd, hu, hv]
          rw [h3, List.countP_cons, List.countP_cons, h1, h2]
          rw [Prod.ext_iff]
          constructor <;> (simp; try omega)
      · have hdu : d.is_digest_unclean = false := by
          simp [CrateStats.is_digest_unclean, hd, hu]
        have h1 : spec_unclean d = false := by
          simp [spec_unclean, hdu]
        have h2 : spec_unclean_unverified d = false := by
          simp [spec_unclean_unverified, hdu]
        have h3 : verify_step acc d = acc := by
          simp [verify_step, hdu]
        rw [h3, List.countP_cons, List.countP_cons, h1, h2]
        simp

theorem verify_counts_eq (deps : List CrateStats) :
    verify_counts deps =
      (deps.countP spec_unclean, deps.countP spec_unclean_unverified) := by
  rw [verify_counts, verify_foldl]
  simp

theorem snd_mem_of_mem_enum {α : Type} {l : List α} {p : Nat × α} (h : p ∈ l.enum) :
    p.2 ∈ l := by
  rw [← List.enum_map_snd l]
  exact List.mem_map_of_mem Prod.snd h

theorem exists_enum_of_mem {α : Type} {l : List α} {x : α} (h : x ∈ l) :
    ∃ i, (i, x) ∈ l.enum := by
  rw [← List.enum_map_snd l] at h
  obtain ⟨⟨i, y⟩, hp, he⟩ := List.mem_map.mp h
  cases he
  exact ⟨i, hp⟩

theorem enum_key_eq_iff {l : List (PackageId × Finset String)} (hn : (keysOf l).Nodup)
    {i j : Nat} {g g2 : PackageId × Finset String}
    (hi : (i, g) ∈ l.enum) (hj : (j, g2) ∈ l.enum) : g.1 = g2.1 ↔ i = j := by
  rw [List.mk_mem_enum_iff_getElem?] at hi hj
  have hi' : (keysOf l)[i]? = some g.1 := by
    rw [keysOf, List.getElem?_map, hi]
    rfl
  have hj' : (keysOf l)[j]? = some g2.1 := by
    rw [keysOf, List.getElem?_map, hj]
    rfl
  obtain ⟨hil, hie⟩ := List.getElem?_eq_some_iff.mp hi'
  obtain ⟨hjl, hje⟩ := List.getElem?_eq_some_iff.mp hj'
  constructor
  · intro h
    exact hn.getElem_inj_iff.mp (by rw [hie, hje, h])
  · intro h
    subst h
    rw [← hie, ← hje]

theorem countP_enum_eq {α : Type} (q : α → Bool) (l : List α) :
    l.enum.countP (fun p => q p.2) = l.countP q := by
  rw [show (fun p : Nat × α => q p.2) = q ∘ Prod.snd from rfl]
  rw [← List.countP_map, List.enum_map_snd]

/-- C6: on any `OwnerSetSet` (with the `HashMap` invariant that keys are not
duplicated), `to_total_distinct_groups` counts exactly the groups for which no
group of a different package in the collection contains all of the group's
members; this holds whether or not the groups are pairwise non-equal as sets.
The claim's concrete examples are discharged in the witness. -/
theorem to_total_distinct_groups_by_key (s : OwnerSetSet)
    (hn : (keysOf s.groups).Nodup) :
    s.to_total_distinct_groups = spec_distinct_groups s := by
  obtain ⟨l⟩ := s
  have hn' : (keysOf l).Nodup := hn
  show l.enum.countP _ = l.countP _
  rw [← countP_enum_eq (fun g : PackageId × Finset String =>
    !(l.any fun g2 => decide (g2.1 ≠ g.1) && decide (g.2 ⊆ g2.2))) l]
  refine List.countP_congr ?_
  rintro ⟨i, g⟩ hig
  have hA : (l.enum.any fun gj => decide (gj.1 ≠ i) && decide (g.2 ⊆ gj.2.2)) =
      (l.any fun g2 => decide (g2.1 ≠ g.1) && decide (g.2 ⊆ g2.2)) := by
    rw [Bool.eq_iff_iff]
    simp only [List.any_eq_true, Bool.and_eq_true, decide_eq_true_eq]
    constructor
    · rintro ⟨⟨j, g2⟩, hj, hne, hsub⟩
      refine ⟨g2, snd_mem_of_mem_enum hj, ?_, hsub⟩
      intro hkey
      exact hne ((enum_key_eq_iff hn' hj hig).mp hkey)
    · rintro ⟨g2, hg2, hne, hsub⟩
      obtain ⟨j, hj⟩ := exists_enum_of_mem hg2
      refine ⟨(j, g2), hj, ?_, hsub⟩
      intro hij
      exact hne ((enum_key_eq_iff hn' hj hig).mpr hij)
  show (!(l.enum.any fun gj => decide (gj.1 ≠ i) && decide (g.2 ⊆ gj.2.2))) = true ↔ _
  rw [hA]

/-- C6 witness: the subset example `{P1:{x,y}, P2:{x}}` counts 1 and the
disjoint example `{P1:{x}, P2:{y}}` counts 2, via the key-based
characterization. -/
theorem to_total_distinct_groups_by_key_witness :
    ossSubsetPair.to_total_distinct_groups = 1 ∧
      ossDisjointPair.to_total_distinct_groups = 2 :=
  ⟨(to_total_distinct_groups_by_key ossSubsetPair (by decide)).trans (by decide),
   (to_total_distinct_groups_by_key ossDisjointPair (by decide)).trans (by decide)⟩

/-- C1: on `{P1:{x,y}, P2:{y,x}}` (two groups equal as sets) the code's
`to_total_distinct_groups` returns 0, not the 1 the spec mandates: each of the
two equal groups sees the other as a superset of itself, so both are excluded
(double-exclusion), while the spec requires at most one of them to be
excluded. -/
theorem to_total_distinct_groups_equal_sets_zero :
    ossEqualPair.to_total_distinct_groups = 0 := by decide

/-- C2 counterexample: `+` on `AccumulativeCrateDetails` is not commutative.
`accL` maps package 1 to `{x}` and `accR` maps package 1 to `{y}`; on key
collision the right operand wins, so `accL + accR` and `accR + accL` differ in
the `owner_set` field. -/
theorem acc_add_not_comm : ¬ (accL + accR).equiv (accR + accL) := by
  intro h
  have h1 := h.2.2.2.2.2.2 1
  have e1 : (accL + accR).owner_set.lookup 1 = some ({"y"} : Finset String) := by decide
  have e2 : (accR + accL).owner_set.lookup 1 = some ({"x"} : Finset String) := by decide
  rw [e1, e2] at h1
  exact absurd h1 (by decide)

/-- C2 amended: `+` on `AccumulativeCrateDetails` is associative on every field
(for operands whose owner-set key lists respect the `HashMap` no-duplicate
invariant), and it is commutative on every field except `owner_set`: the
owner-set union is last-write-wins on key collision, so `a + b` and `b + a`
can differ there. -/
theorem acc_add_assoc_comm_except_owner_set (a b c : AccumulativeCrateDetails)
    (hb : (keysOf b.owner_set.groups).Nodup) (hc : (keysOf c.owner_set.groups).Nodup) :
    ((a + b) + c).equiv (a + (b + c)) ∧
      ((a + b).trust = (b + a).trust ∧
       (a + b).trusted_issues = (b + a).trusted_issues ∧
       (a + b).verified = (b + a).verified ∧
       (a + b).loc = (b + a).loc ∧
       (a + b).geiger_count = (b + a).geiger_count ∧
       (a + b).has_custom_build = (b + a).has_custom_build) := by
  constructor
  · exact ⟨VerificationStatus.min_assoc a.trust b.trust c.trust,
      CountWithTotal.nat_add_assoc a.trusted_issues b.trusted_issues c.trusted_issues,
      Bool.and_assoc a.verified b.verified c.verified,
      sum_options_nat_assoc a.loc b.loc c.loc,
      sum_options_nat_assoc a.geiger_count b.geiger_count c.geiger_count,
      Bool.or_assoc a.has_custom_build b.has_custom_build c.has_custom_build,
      OwnerSetSet.add_assoc_equiv a.owner_set b.owner_set c.owner_set hb hc⟩
  · exact ⟨VerificationStatus.min_comm a.trust b.trust,
      CountWithTotal.nat_add_comm a.trusted_issues b.trusted_issues,
      Bool.and_comm a.verified b.verified,
      sum_options_nat_comm a.loc b.loc,
      sum_options_nat_comm a.geiger_count b.geiger_count,
      Bool.or_comm a.has_custom_build b.has_custom_build⟩

/-- C2 witness: the amended theorem applied to concrete rollups. -/
theorem acc_add_assoc_comm_except_owner_set_witness :
    ((accL + accR) + accT).equiv (accL + (accR + accT)) :=
  (acc_add_assoc_comm_except_owner_set accL accR accT (by decide) (by decide)).1

/-- C3 counterexample: on an entry whose details are `Ok(None)`, `crate_mvps`
panics (the Rust `.expect("some")`), it does not return an `Err`. -/
theorem crate_mvps_ok_none_panics :
    crate_mvps [statsNone] = RunResult.panicked "some" ∧
      (crate_mvps [statsNone]).isErr = false :=
  ⟨rfl, rfl⟩

/-- C3 amended: `crate_mvps` aborts whenever an entry's details are an error or
absent: after any prefix of entries with full details, an `Err(e)` entry makes
the whole command return `Err(e)` (the `?` operator), while an `Ok(None)` entry
makes it panic (the `.expect("some")`), which aborts the process but is not an
`Err` return value. -/
theorem crate_mvps_abort (pre : List CrateStats) (s : CrateStats) (rest : List CrateStats)
    (hpre : ∀ x ∈ pre, x.has_details = true) :
    (∀ e, s.details = Except.error e → crate_mvps (pre ++ s :: rest) = RunResult.err e) ∧
      (s.details = Except.ok none →
        crate_mvps (pre ++ s :: rest) = RunResult.panicked "some") := by
  obtain ⟨acc2, hacc⟩ := crate_mvps_go_append pre (s :: rest) (fun _ => 0) hpre
  rw [crate_mvps, hacc]
  constructor
  · intro e he
    simp [crate_mvps_go, he]
  · intro he
    simp [crate_mvps_go, he]

/-- C3 witness: a good entry followed by an `Err("io")` entry propagates the
error. -/
theorem crate_mvps_abort_witness :
    crate_mvps ([statsGood] ++ statsErr :: []) = RunResult.err "io" :=
  (crate_mvps_abort [statsGood] statsErr [] (by
    intro x hx
    rw [List.mem_singleton] at hx
    subst hx
    rfl)).1 "io" rfl

/-- C4: the field-by-field behaviour of `+` on `AccumulativeCrateDetails`:
`verified` is AND, `trust` is min, `has_custom_build` is OR, `trusted_issues`
adds component-wise, and `loc` / `geiger_count` are unknown if either operand
is unknown and the sum when both are known. -/
theorem acc_add_fields (a b : AccumulativeCrateDetails) :
    (a + b).verified = (a.verified && b.verified) ∧
      (a + b).trust = a.trust.min b.trust ∧
      (a + b).has_custom_build = (a.has_custom_build || b.has_custom_build) ∧
      (a + b).trusted_issues.count = a.trusted_issues.count + b.trusted_issues.count ∧
      (a + b).trusted_issues.total = a.trusted_issues.total + b.trusted_issues.total ∧
      ((a.loc = none ∨ b.loc = none) → (a + b).loc = none) ∧
      (∀ x y, a.loc = some x → b.loc = some y → (a + b).loc = some (x + y)) ∧
      ((a.geiger_count = none ∨ b.geiger_count = none) → (a + b).geiger_count = none) ∧
      (∀ x y, a.geiger_count = some x → b.geiger_count = some y →
        (a + b).geiger_count = some (x + y)) := by
  have hloc : (a + b).loc = sum_options a.loc b.loc := rfl
  have hgei : (a + b).geiger_count = sum_options a.geiger_count b.geiger_count := rfl
  refine ⟨rfl, rfl, rfl, rfl, rfl, ?_, ?_, ?_, ?_⟩
  · rintro (h | h)
    · rw [hloc, h, sum_options_none_left]
    · rw [hloc, h, sum_options_none_right]
  · intro x y hx hy
    rw [hloc, hx, hy, sum_options_some]
  · rintro (h | h)
    · rw [hgei, h, sum_options_none_left]
    · rw [hgei, h, sum_options_none_right]
  · intro x y hx hy
    rw [hgei, hx, hy, sum_options_some]

/-- C4 witness: an unknown `loc` poisons the sum, known pairs add. -/
theorem acc_add_fields_witness :
    (accL + accT).loc = none ∧ (accL + accR).loc = some 15 ∧
      (accL + accR).geiger_count = some 3 :=
  ⟨(acc_add_fields accL accT).2.2.2.2.2.1 (Or.inr rfl),
   (acc_add_fields accL accR).2.2.2.2.2.2.1 10 5 rfl rfl,
   (acc_add_fields accL accR).2.2.2.2.2.2.2.2 0 3 rfl rfl⟩

/-- C5: the counters of `verify_deps` match the spec — the unclean counter
counts exactly the entries with details present and `unclean_digest` true, the
unverified counter counts those of them whose accumulated-tree `verified` flag
is false — and `verify_deps` returns `Success` iff the unverified counter is
zero, otherwise the distinguished `VerificationFailed` status; `main` maps the
three outcomes (success, verification failure, hard error) to the distinct
process exit codes 0, -1 and -2. -/
theorem verify_deps_spec :
    (∀ deps : List CrateStats,
      (verify_counts deps).1 = deps.countP spec_unclean ∧
        (verify_counts deps).2 = deps.countP spec_unclean_unverified) ∧
      (∀ deps : List CrateStats,
        (verify_deps deps = CommandExitStatus.Success ↔ (verify_counts deps).2 = 0) ∧
          (verify_deps deps = CommandExitStatus.Success ∨
            verify_deps deps = CommandExitStatus.VerificationFailed)) ∧
      mainExitCode (Except.ok CommandExitStatus.Success) = 0 ∧
      mainExitCode (Except.ok CommandExitStatus.VerificationFailed) = -1 ∧
      (∀ e : String, mainExitCode (Except.error e) = -2) := by
  refine ⟨?_, ?_, rfl, rfl, fun e => rfl⟩
  · intro deps
    rw [verify_counts_eq]
    exact ⟨rfl, rfl⟩
  · intro deps
    constructor
    · rw [verify_deps]
      by_cases h : (verify_counts deps).2 = 0 <;> simp [h]
    · rw [verify_deps]
      by_cases h : (verify_counts deps).2 = 0 <;> simp [h]

/-- C7: `+` on `OwnerSetSet` (right operand with the `HashMap` no-duplicate
key invariant) contains exactly the keys of both operands; a key present in
the right operand maps to the right operand's set (last-write-wins, the value
sets are not unioned), and a key present only in the left operand maps to the
left operand's set. -/
theorem owner_set_add_spec (a b : OwnerSetSet) (hb : (keysOf b.groups).Nodup) :
    (∀ k, (a + b).hasKey k ↔ a.hasKey k ∨ b.hasKey k) ∧
      (∀ k, b.hasKey k → (a + b).lookup k = b.lookup k) ∧
      (∀ k, a.hasKey k → ¬ b.hasKey k → (a + b).lookup k = a.lookup k) := by
  refine ⟨fun k => OwnerSetSet.hasKey_add a b k, fun k hk => ?_, fun k hak hbk => ?_⟩
  · rw [OwnerSetSet.lookup_add a b k hb, if_pos hk]
  · rw [OwnerSetSet.lookup_add a b k hb, if_neg hbk]

/-- C7 witness: on the colliding key 1 the right operand's set wins; key 2,
present only on the left, keeps the left operand's set. -/
theorem owner_set_add_spec_witness :
    (ossL + ossR).lookup 1 = ossR.lookup 1 ∧ (ossL + ossR).lookup 2 = ossL.lookup 2 :=
  ⟨(owner_set_add_spec ossL ossR (by decide)).2.1 1 (by decide),
   (owner_set_add_spec ossL ossR (by decide)).2.2 2 (by decide) (by decide)⟩

/-- C8: `+` on `CountWithTotal T` is component-wise addition, and for any `T`
whose addition is associative and commutative it is associative and
commutative. -/
theorem count_with_total_add_spec (T : Type) [Add T]
    (hassoc : ∀ x y z : T, x + y + z = x + (y + z))
    (hcomm : ∀ x y : T, x + y = y + x) :
    (∀ a b : CountWithTotal T, a + b = ⟨a.count + b.count, a.total + b.total⟩) ∧
      (∀ a b c : CountWithTotal T, a + b + c = a + (b + c)) ∧
      (∀ a b : CountWithTotal T, a + b = b + a) := by
  refine ⟨fun a b => rfl, fun a b c => ?_, fun a b => ?_⟩
  · show (⟨a.count + b.count + c.count, a.total + b.total + c.total⟩ : CountWithTotal T) =
      ⟨a.count + (b.count + c.count), a.total + (b.total + c.total)⟩
    rw [hassoc, hassoc]
  · show (⟨a.count + b.count, a.total + b.total⟩ : CountWithTotal T) =
      ⟨b.count + a.count, b.total + a.total⟩
    rw [hcomm a.count b.count, hcomm a.total b.total]

/-- C8 witness: the theorem at `T = Nat` on concrete values. -/
theorem count_with_total_add_spec_witness :
    (⟨1, 2⟩ + ⟨3, 4⟩ : CountWithTotal Nat) = ⟨4, 6⟩ ∧
      ((⟨1, 2⟩ + ⟨3, 4⟩ : CountWithTotal Nat) = ⟨3, 4⟩ + ⟨1, 2⟩) :=
  ⟨(count_with_total_add_spec Nat Nat.add_assoc Nat.add_comm).1 ⟨1, 2⟩ ⟨3, 4⟩,
   (count_with_total_add_spec Nat Nat.add_assoc Nat.add_comm).2.2 ⟨1, 2⟩ ⟨3, 4⟩⟩

/-- C9: an entry whose details are `Err` or `Ok(None)` is never unclean, has no
details, and contributes to neither counter of `verify_deps`. -/
theorem failed_details_not_counted (s : CrateStats)
    (h : s.details = Except.ok none ∨ ∃ e, s.details = Except.error e) :
    s.is_digest_unclean = false ∧ s.has_details = false ∧
      ∀ pre rest : List CrateStats,
        verify_counts (pre ++ s :: rest) = verify_counts (pre ++ rest) := by
  have hnone : s.details' = none := by
    rcases h with h | ⟨e, h⟩ <;> simp [CrateStats.details', h]
  refine ⟨?_, ?_, ?_⟩
  · simp [CrateStats.is_digest_unclean, hnone]
  · simp [CrateStats.has_details, hnone]
  · intro pre rest
    have hstep : ∀ acc, verify_step acc s = acc := fun acc => by
      simp [verify_step, CrateStats.is_digest_unclean, hnone]
    rw [verify_counts, verify_counts, List.foldl_append, List.foldl_append,
      List.foldl_cons, hstep]

/-- C9 witness: an `Ok(None)` entry is not unclean and drops out of the
counters. -/
theorem failed_details_not_counted_witness :
    statsNone.is_digest_unclean = false ∧
      verify_counts ([statsGood] ++ statsNone :: []) = verify_counts ([statsGood] ++ []) :=
  ⟨(failed_details_not_counted statsNone (Or.inl rfl)).1,
   (failed_details_not_counted statsNone (Or.inl rfl)).2.2 [statsGood] []⟩

/-- C10: `CrateStats::has_custom_build` is `None` when the details are an error
or absent, and otherwise is the accumulated subtree's flag
`details.accumulative.has_custom_build`. -/
theorem has_custom_build_spec (s : CrateStats) :
    ((s.details = Except.ok none ∨ ∃ e, s.details = Except.error e) →
      s.has_custom_build = none) ∧
      (∀ d, s.details = Except.ok (some d) →
        s.has_custom_build = some d.accumulative.has_custom_build) := by
  constructor
  · intro h
    rcases h with h | ⟨e, h⟩ <;> simp [CrateStats.has_custom_build, h, Except.toOption]
  · intro d h
    simp [CrateStats.has_custom_build, h, Except.toOption]

/-- C10 witness: on an entry whose own `CrateInfo` flag is true but whose
accumulated subtree's flag is false, the method returns `some false` — the
subtree's flag, not the node's own flag. -/
theorem has_custom_build_spec_witness :
    statsBuild.info.has_custom_build = true ∧
      statsBuild.has_custom_build = some false :=
  ⟨rfl, (has_custom_build_spec statsBuild).2 detBuild rfl⟩
